import Mathlib

/-!
Verification of the tracing subsystem of this repository: the `Agent`,
`AgentWriterHandle` and `TracingController` classes declared in
`src/tracing/agent.h`, and the `NodeCategorySet` binding in
`src/node_trace_events.cc`.

The header contains the full inline bodies of the `AgentWriterHandle`
methods (`reset`, the move operations, `Enable`, `Disable`,
`GetTracingController`) and of `TracingController::CurrentTimestampMicroseconds`;
those are embedded here directly from the source.  The bodies of the
`Agent` member functions (`AddClient`, `Enable`, `Disable`, `Disconnect`,
`GetEnabledCategories`, `AppendTraceEvent`) live in `agent.cc`, which is
not part of the available sources; those operations are modelled from the
specification and marked as such in their doc comments.

Handle and category-set methods are embedded as pure functions that
return, besides the updated object, the list of calls they make into the
`Agent` (respectively into the agent writer handle); theorems about
"exactly one Disconnect" and similar properties are statements about
these call lists.
-/

namespace Tracing

/-- A per-id category multiset, kept as an insertion-ordered list
(one list element per contributed occurrence). -/
abbrev Cats := List String

/-- Modelled from the spec: the Agent-side state the claims need.
`next_writer_id` starts at 1 (`int next_writer_id_ = 1;` in the header);
`categories_` is the category ref-count table, an insertion-ordered
association list from registration id to the multiset of category
strings that id contributed (`std::unordered_map<int, std::multiset<std::string>>`
in the header, with the spec's order-stability requirement);
`writers` is the list of registered writer ids in registration order
(the keys of `writers_` in the header). -/
structure Agent where
  next_writer_id : Int
  categories_ : List (Int × Cats)
  writers : List Int
deriving DecidableEq

/-- The freshly constructed Agent: no registrations, no categories,
first id to hand out is 1. -/
def initAgent : Agent := ⟨1, [], []⟩

/-- The sentinel id of the default-categories handle
(`enum { kDefaultHandleId = -1 };` in the header). -/
def kDefaultHandleId : Int := -1

/-- Insert each category of `cats` once into `id`'s multiset, creating the
entry (at the end, in insertion order) when `id` has none yet. -/
def enableAssoc : List (Int × Cats) → Int → List String → List (Int × Cats)
  | [], id, cats => [(id, cats)]
  | (k, v) :: rest, id, cats =>
    if k = id then (k, v ++ cats) :: rest
    else (k, v) :: enableAssoc rest id cats

/-- Remove one occurrence of each element of `cats` from `l`. -/
def removeAll (l : List String) (cats : List String) : List String :=
  cats.foldl List.erase l

/-- Remove one occurrence of each category of `cats` from `id`'s multiset;
ids without an entry are untouched. -/
def disableAssoc : List (Int × Cats) → Int → List String → List (Int × Cats)
  | [], _, _ => []
  | (k, v) :: rest, id, cats =>
    if k = id then (k, removeAll v cats) :: rest
    else (k, v) :: disableAssoc rest id cats

/-- Modelled from the spec: `Agent::Enable(id, categories)` (body in the
missing `agent.cc`): "enable inserts each category string once per call"
into the ref-count multiset for `id`. -/
def agentEnable (a : Agent) (id : Int) (cats : List String) : Agent :=
  { a with categories_ := enableAssoc a.categories_ id cats }

/-- Modelled from the spec: `Agent::Disable(id, categories)` (body in the
missing `agent.cc`): "disable removes one occurrence of each". -/
def agentDisable (a : Agent) (id : Int) (cats : List String) : Agent :=
  { a with categories_ := disableAssoc a.categories_ id cats }

/-- Modelled from the spec: `Agent::Disconnect(id)` (body in the missing
`agent.cc`): removes the registration for `id` from the registry and from
the ref-count table; a no-op when `id` is no longer present. -/
def agentDisconnect (a : Agent) (id : Int) : Agent :=
  { a with
    categories_ := a.categories_.filter (fun p => p.1 ≠ id)
    writers := a.writers.filter (fun w => w ≠ id) }

/-- Modelled from the spec: `Agent::AddClient(categories, writer, mode)`
(body in the missing `agent.cc`): assigns the fresh id `next_writer_id`
and bumps it, registers the writer, and stores the registration's
category multiset, taking the union with the default-handle categories
when the mode asks for them.  Returns the updated agent and the id the
returned handle is bound to. -/
def agentAddClient (a : Agent) (cats : List String) (useDefault : Bool) :
    Agent × Int :=
  let id := a.next_writer_id
  let defCats :=
    if useDefault then
      ((a.categories_.lookup kDefaultHandleId).getD []).filter
        (fun c => !(cats.contains c))
    else []
  ({ next_writer_id := id + 1
     categories_ := a.categories_ ++ [(id, cats ++ defCats)]
     writers := a.writers ++ [id] }, id)

/-- The multiset union of every id's contributed categories, in insertion
order across ids; a category is currently enabled iff it occurs here. -/
def enabledList (a : Agent) : List String :=
  (a.categories_.map Prod.snd).flatten

/-- Modelled from the spec: `Agent::GetEnabledCategories()` (body in the
missing `agent.cc`, comment in the header: "Returns a comma-separated
list of enabled categories"): the union of all ids' nonempty multisets,
comma-joined, in insertion order across ids. -/
def getEnabledCategories (a : Agent) : String :=
  String.intercalate "," (enabledList a)

/-- Modelled from the spec: `Agent::AppendTraceEvent(trace_event)` (body
in the missing `agent.cc`, comment in the header: "Writes to all writers
registered through AddClient()"): forwards the event to every registered
writer unconditionally, in registration order.  The result is the list of
(writer id, event) append calls made. -/
def appendTraceEvent (a : Agent) (ev : Nat) : List (Int × Nat) :=
  a.writers.map (fun w => (w, ev))

/-- One Agent-level operation, for quantifying over call sequences. -/
inductive AgentOp where
  | addClient (cats : List String) (useDefault : Bool)
  | disconnect (id : Int)
  | enable (id : Int) (cats : List String)
  | disable (id : Int) (cats : List String)
deriving DecidableEq

/-- Apply one operation to the Agent state. -/
def stepAgent (a : Agent) : AgentOp → Agent
  | .addClient cats d => (agentAddClient a cats d).1
  | .disconnect id => agentDisconnect a id
  | .enable id cats => agentEnable a id cats
  | .disable id cats => agentDisable a id cats

/-- Run a sequence of operations from a given Agent state. -/
def runAgent (a : Agent) (ops : List AgentOp) : Agent :=
  ops.foldl stepAgent a

/-- The ids handed out by the `addClient` operations of `ops`, in call
order, when run from state `a`. -/
def assignedIdsFrom (a : Agent) : List AgentOp → List Int
  | [] => []
  | op :: rest =>
    match op with
    | .addClient cats d =>
      a.next_writer_id :: assignedIdsFrom (stepAgent a (.addClient cats d)) rest
    | _ => assignedIdsFrom (stepAgent a op) rest

/-- The ids handed out by the `addClient` operations of `ops`, in call
order, starting from the freshly constructed Agent. -/
def assignedIds (ops : List AgentOp) : List Int :=
  assignedIdsFrom initAgent ops

/-- A call made by an `AgentWriterHandle` into its `Agent`. -/
inductive AgentCall where
  | disconnect (id : Int)
  | enable (id : Int) (cats : List String)
  | disable (id : Int) (cats : List String)
deriving DecidableEq

/-- `class AgentWriterHandle`: `agent_` models whether the `Agent*` member
is non-null, `id_` the `int id_` member.  A default-constructed handle has
`agent_ = nullptr` (member initializer) and an indeterminate `id_`,
modelled as 0. -/
structure AgentWriterHandle where
  agent_ : Bool := false
  id_ : Int := 0
deriving DecidableEq

/-- `AgentWriterHandle::reset()`: calls `Agent::Disconnect(id_)` when the
handle is non-empty, then clears `agent_`.  Returns the updated handle and
the calls made into the Agent. -/
def AgentWriterHandle.reset (h : AgentWriterHandle) :
    AgentWriterHandle × List AgentCall :=
  (⟨false, h.id_⟩, if h.agent_ then [AgentCall.disconnect h.id_] else [])

/-- `AgentWriterHandle::operator=(AgentWriterHandle&&)`: first `reset()`s
the destination, then copies the source's `(agent_, id_)` pair and nulls
the source's `agent_`.  Returns (new destination, moved-from source, calls
made into the Agent). -/
def AgentWriterHandle.moveAssign (dest src : AgentWriterHandle) :
    AgentWriterHandle × AgentWriterHandle × List AgentCall :=
  let r := dest.reset
  (⟨src.agent_, src.id_⟩, ⟨false, src.id_⟩, r.2)

/-- `AgentWriterHandle::AgentWriterHandle(AgentWriterHandle&&)`: move
assignment into a default-constructed handle (`agent_ = nullptr`). -/
def AgentWriterHandle.moveConstruct (src : AgentWriterHandle) :
    AgentWriterHandle × AgentWriterHandle × List AgentCall :=
  AgentWriterHandle.moveAssign ⟨false, 0⟩ src

/-- `AgentWriterHandle::Enable(categories)`: forwards to
`Agent::Enable(id_, categories)` when bound, else does nothing. -/
def AgentWriterHandle.Enable (h : AgentWriterHandle) (cats : List String) :
    List AgentCall :=
  if h.agent_ then [AgentCall.enable h.id_ cats] else []

/-- `AgentWriterHandle::Disable(categories)`: forwards to
`Agent::Disable(id_, categories)` when bound, else does nothing. -/
def AgentWriterHandle.Disable (h : AgentWriterHandle) (cats : List String) :
    List AgentCall :=
  if h.agent_ then [AgentCall.disable h.id_ cats] else []

/-- `AgentWriterHandle::GetTracingController()`: the Agent's controller
when bound, else null (`none`). -/
def AgentWriterHandle.GetTracingController (h : AgentWriterHandle) :
    Option Unit :=
  if h.agent_ then some () else none

/-- Apply one handle-emitted call to the Agent state. -/
def applyAgentCall (a : Agent) : AgentCall → Agent
  | .disconnect id => agentDisconnect a id
  | .enable id cats => agentEnable a id cats
  | .disable id cats => agentDisable a id cats

/-- Apply a list of handle-emitted calls to the Agent state. -/
def applyCalls (a : Agent) (cs : List AgentCall) : Agent :=
  cs.foldl applyAgentCall a

/-- `TracingController::CurrentTimestampMicroseconds()`:
`return uv_hrtime() / 1000;`.  `uv_hrtime` yields the monotonic clock in
nanoseconds as a `uint64_t` (modelled by truncating the mathematical
nanosecond count to 64 bits); the division by 1000 is C++ integer
division on that unsigned value, and the result is returned as `int64_t`. -/
def currentTimestampMicroseconds (hrtimeNanos : Nat) : Int :=
  ((hrtimeNanos % 2 ^ 64) / 1000 : Nat)

/-- A call made by `NodeCategorySet` into the tracing agent writer handle
(`env->tracing_agent_writer()`). -/
inductive WriterCall where
  | enable (cats : List String)
  | disable (cats : List String)
deriving DecidableEq

/-- `class NodeCategorySet` (binding layer): `enabled_` starts false and
`categories_` is the immutable `std::set<std::string>` built by `New`. -/
structure NodeCategorySet where
  enabled_ : Bool := false
  categories_ : List String
deriving DecidableEq

/-- `NodeCategorySet::Enable`: forwards the categories to the agent writer
handle and flips `enabled_` only when the set is not already enabled and
is non-empty.  Returns the updated set and the forwarded calls. -/
def NodeCategorySet.Enable (s : NodeCategorySet) :
    NodeCategorySet × List WriterCall :=
  if !s.enabled_ && !s.categories_.isEmpty then
    ({ s with enabled_ := true }, [WriterCall.enable s.categories_])
  else (s, [])

/-- `NodeCategorySet::Disable`: forwards the categories to the agent
writer handle and clears `enabled_` only when the set is currently enabled
and non-empty.  Returns the updated set and the forwarded calls. -/
def NodeCategorySet.Disable (s : NodeCategorySet) :
    NodeCategorySet × List WriterCall :=
  if s.enabled_ && !s.categories_.isEmpty then
    ({ s with enabled_ := false }, [WriterCall.disable s.categories_])
  else (s, [])

/-- One user-level call on a `NodeCategorySet`. -/
inductive NcsOp where
  | enable
  | disable
deriving DecidableEq

/-- Apply one call to a `NodeCategorySet`. -/
def stepNcs (s : NodeCategorySet) : NcsOp → NodeCategorySet × List WriterCall
  | .enable => s.Enable
  | .disable => s.Disable

/-- Run a sequence of enable/disable calls on a `NodeCategorySet`,
collecting all calls forwarded to the agent writer handle. -/
def runNcs (s : NodeCategorySet) : List NcsOp → NodeCategorySet × List WriterCall
  | [] => (s, [])
  | op :: rest =>
    ((runNcs (stepNcs s op).1 rest).1,
      (stepNcs s op).2 ++ (runNcs (stepNcs s op).1 rest).2)

/-- Whether a forwarded call is an enable. -/
def isEnableCall : WriterCall → Bool
  | .enable _ => true
  | .disable _ => false

/-- Forwarded enables minus forwarded disables: the net number of times a
set's categories are currently counted in the Agent's ref-count table. -/
def netEnables (cs : List WriterCall) : Int :=
  ((cs.filter isEnableCall).length : Int)
    - ((cs.filter (fun c => !isEnableCall c)).length : Int)

/-- 1 when the flag is set, 0 otherwise. -/
def bit (b : Bool) : Int := if b then 1 else 0

/-! ## Helper lemmas -/

lemma mem_enabledList (a : Agent) (c : String) :
    c ∈ enabledList a ↔ ∃ p ∈ a.categories_, c ∈ p.2 := by
  simp only [enabledList, List.mem_flatten, List.mem_map]
  constructor
  · rintro ⟨l, ⟨p, hp, rfl⟩, hc⟩
    exact ⟨p, hp, hc⟩
  · rintro ⟨p, hp, hc⟩
    exact ⟨p.2, ⟨p, hp, rfl⟩, hc⟩

/-! ## C1, C3, C4, C5, C9 -/

/-- C1: for every sequence of Enable/Disable (and other) operations from
the initial Agent state, the enabled-category list behind
`GetEnabledCategories` contains a category string `c` iff at least one
id's ref-count multiset currently holds `c` with positive multiplicity;
in particular, after Enable(1,{"a"}); Enable(2,{"a"}); Disable(1,{"a"})
the category "a" is still enabled, and after a further Disable(2,{"a"})
it is not. -/
theorem refCountInvariant :
    (∀ (ops : List AgentOp) (c : String),
      c ∈ enabledList (runAgent initAgent ops) ↔
        ∃ p ∈ (runAgent initAgent ops).categories_, c ∈ p.2)
    ∧ "a" ∈ enabledList (runAgent initAgent
        [AgentOp.enable 1 ["a"], AgentOp.enable 2 ["a"],
          AgentOp.disable 1 ["a"]])
    ∧ "a" ∉ enabledList (runAgent initAgent
        [AgentOp.enable 1 ["a"], AgentOp.enable 2 ["a"],
          AgentOp.disable 1 ["a"], AgentOp.disable 2 ["a"]]) := by
  refine ⟨fun ops c => mem_enabledList _ c, ?_, ?_⟩ <;> decide

/-- C3: `reset` on a bound handle makes exactly one `Disconnect` call
with the handle's id and empties the handle; on an empty handle it makes
no call, so a second `reset` (or the destructor, which just calls
`reset`) after a first one never adds a `Disconnect`: a bound handle
that is reset and then destroyed produces exactly one `Disconnect` in
total. -/
theorem handleResetDisconnectOnce :
    ∀ h : AgentWriterHandle,
      (h.reset).2 = (if h.agent_ then [AgentCall.disconnect h.id_] else [])
      ∧ (h.reset).1.agent_ = false
      ∧ ((h.reset).1.reset).2 = []
      ∧ (h.agent_ = true →
          (h.reset).2 ++ ((h.reset).1.reset).2 = [AgentCall.disconnect h.id_]) := by
  rintro ⟨ag, i⟩
  cases ag <;> simp [AgentWriterHandle.reset]

/-- C3 witness: a bound handle with id 5, reset and then reset again
(as its destructor would), makes exactly one `Disconnect(5)` call. -/
theorem handleResetDisconnectOnce_witness :
    ((AgentWriterHandle.mk true 5).reset).2
      ++ (((AgentWriterHandle.mk true 5).reset).1.reset).2
      = [AgentCall.disconnect 5] :=
  (handleResetDisconnectOnce ⟨true, 5⟩).2.2.2 rfl

/-- C4: move-construction and move-assignment transfer the
`(agent_, id_)` pair to the destination and leave the moved-from source
empty; move-construction makes no Agent call at all, and a
move-assignment whose destination is empty or bound to a different id
(as single ownership guarantees for distinct handles) never calls
`Disconnect` with the moved-from source's id. -/
theorem handleMoveNoSourceDisconnect :
    ∀ dest src : AgentWriterHandle,
      (AgentWriterHandle.moveAssign dest src).1
          = AgentWriterHandle.mk src.agent_ src.id_
      ∧ (AgentWriterHandle.moveAssign dest src).2.1.agent_ = false
      ∧ (AgentWriterHandle.moveConstruct src).1
          = AgentWriterHandle.mk src.agent_ src.id_
      ∧ (AgentWriterHandle.moveConstruct src).2.1.agent_ = false
      ∧ (AgentWriterHandle.moveConstruct src).2.2 = []
      ∧ (dest.agent_ = false →
          (AgentWriterHandle.moveAssign dest src).2.2 = [])
      ∧ (dest.id_ ≠ src.id_ →
          AgentCall.disconnect src.id_
            ∉ (AgentWriterHandle.moveAssign dest src).2.2) := by
  rintro ⟨dag, di⟩ ⟨sag, si⟩
  refine ⟨?_, ?_, ?_, ?_, ?_, ?_, ?_⟩ <;>
    cases dag <;>
      simp [AgentWriterHandle.moveAssign, AgentWriterHandle.moveConstruct,
        AgentWriterHandle.reset]
  all_goals omega

/-- C4 witness: move-assigning a handle bound to id 2 into a handle bound
to id 1 never emits `Disconnect(2)`. -/
theorem handleMoveNoSourceDisconnect_witness :
    AgentCall.disconnect 2
      ∉ (AgentWriterHandle.moveAssign ⟨true, 1⟩ ⟨true, 2⟩).2.2 :=
  (handleMoveNoSourceDisconnect ⟨true, 1⟩ ⟨true, 2⟩).2.2.2.2.2.2
    (by decide)

/-- C5: on a default-constructed (empty) handle, `Enable` and `Disable`
make no Agent call and leave any Agent state unchanged, and
`GetTracingController` returns null; the same holds for a handle emptied
by `reset` and for a moved-from handle. -/
theorem emptyHandleNoop :
    ∀ (h d s : AgentWriterHandle) (cats : List String) (a : Agent),
      (AgentWriterHandle.mk false 0).Enable cats = []
      ∧ (AgentWriterHandle.mk false 0).Disable cats = []
      ∧ (AgentWriterHandle.mk false 0).GetTracingController = none
      ∧ applyCalls a ((AgentWriterHandle.mk false 0).Enable cats) = a
      ∧ applyCalls a ((AgentWriterHandle.mk false 0).Disable cats) = a
      ∧ (h.reset).1.Enable cats = []
      ∧ (h.reset).1.Disable cats = []
      ∧ (h.reset).1.GetTracingController = none
      ∧ (AgentWriterHandle.moveAssign d s).2.1.Enable cats = []
      ∧ (AgentWriterHandle.moveAssign d s).2.1.Disable cats = []
      ∧ (AgentWriterHandle.moveAssign d s).2.1.GetTracingController = none := by
  intro h d s cats a
  simp [AgentWriterHandle.Enable, AgentWriterHandle.Disable,
    AgentWriterHandle.GetTracingController, AgentWriterHandle.reset,
    AgentWriterHandle.moveAssign, applyCalls]

/-- C9: move-assigning into a handle that is currently bound first makes
exactly the one `Disconnect` call with the destination's old id (the
`reset()` at the top of `operator=`), then adopts the source's
`(agent_, id_)` pair and empties the source. -/
theorem moveAssignResetsDest :
    ∀ dest src : AgentWriterHandle, dest.agent_ = true →
      (AgentWriterHandle.moveAssign dest src).2.2
          = [AgentCall.disconnect dest.id_]
      ∧ (AgentWriterHandle.moveAssign dest src).1
          = AgentWriterHandle.mk src.agent_ src.id_
      ∧ (AgentWriterHandle.moveAssign dest src).2.1.agent_ = false := by
  rintro ⟨dag, di⟩ ⟨sag, si⟩ h
  subst h
  simp [AgentWriterHandle.moveAssign, AgentWriterHandle.reset]

/-- C9 witness: move-assigning into a handle bound to id 3 emits exactly
`Disconnect(3)` and takes over the source's binding to id 4. -/
theorem moveAssignResetsDest_witness :
    (AgentWriterHandle.moveAssign ⟨true, 3⟩ ⟨true, 4⟩).2.2
      = [AgentCall.disconnect 3] :=
  (moveAssignResetsDest ⟨true, 3⟩ ⟨true, 4⟩ rfl).1

/-! ## Registry invariant and id assignment -/

/-- Registry invariant: registered writer ids are distinct and all below
the next id to be handed out. -/
def AgentInv (a : Agent) : Prop :=
  a.writers.Nodup ∧ ∀ w ∈ a.writers, w < a.next_writer_id

lemma stepAgent_next_mono (a : Agent) (op : AgentOp) :
    a.next_writer_id ≤ (stepAgent a op).next_writer_id := by
  cases op <;>
    simp [stepAgent, agentAddClient, agentDisconnect, agentEnable,
      agentDisable]

lemma stepAgent_inv (a : Agent) (op : AgentOp) (h : AgentInv a) :
    AgentInv (stepAgent a op) := by
  obtain ⟨hn, hb⟩ := h
  cases op with
  | addClient cats d =>
    constructor
    · simp only [stepAgent, agentAddClient]
      refine List.Nodup.append hn (List.nodup_singleton _) ?_
      intro w hw hw1
      simp only [List.mem_singleton] at hw1
      exact absurd (hb w hw) (by omega)
    · intro w hw
      simp only [stepAgent, agentAddClient, List.mem_append,
        List.mem_singleton] at hw ⊢
      rcases hw with hw | hw
      · have := hb w hw
        omega
      · omega
  | disconnect id =>
    constructor
    · exact hn.filter _
    · intro w hw
      simp only [stepAgent, agentDisconnect, List.mem_filter] at hw ⊢
      exact hb w hw.1
  | enable id cats =>
    exact ⟨hn, hb⟩
  | disable id cats =>
    exact ⟨hn, hb⟩

lemma runAgent_inv (ops : List AgentOp) :
    ∀ a : Agent, AgentInv a → AgentInv (runAgent a ops) := by
  induction ops with
  | nil => exact fun a h => h
  | cons op rest ih =>
    intro a h
    exact ih (stepAgent a op) (stepAgent_inv a op h)

lemma count_map_pair (ev : Nat) (w : Int) (l : List Int) :
    (l.map fun x => (x, ev)).count (w, ev) = l.count w := by
  induction l with
  | nil => rfl
  | cons x xs ih =>
    by_cases h : x = w <;>
      simp [List.count_cons, ih, h, Prod.ext_iff]

lemma count_nodup_one :
    ∀ {l : List Int} {w : Int}, l.Nodup → w ∈ l → l.count w = 1 := by
  intro l
  induction l with
  | nil =>
    intro w _ hm
    simp at hm
  | cons x xs ih =>
    intro w hd hm
    rcases List.mem_cons.mp hm with rfl | hm
    · have hx : w ∉ xs := (List.nodup_cons.mp hd).1
      simp [List.count_cons, List.count_eq_zero.mpr hx]
    · have hx : x ≠ w := by
        rintro rfl
        exact (List.nodup_cons.mp hd).1 hm
      simp [List.count_cons, ih (List.nodup_cons.mp hd).2 hm, hx]

lemma initAgent_inv : AgentInv initAgent := by
  constructor
  · exact List.nodup_nil
  · intro w hw
    simp [initAgent] at hw

/-- C2: for every reachable Agent state, `AppendTraceEvent` forwards the
event to exactly the registered writers, one append call per writer
(ids are distinct in reachable states), in registration order, and the
category ref-count table plays no role in the fan-out. -/
theorem appendFanout :
    ∀ (ops : List AgentOp) (ev : Nat),
      appendTraceEvent (runAgent initAgent ops) ev
          = (runAgent initAgent ops).writers.map (fun w => (w, ev))
      ∧ (appendTraceEvent (runAgent initAgent ops) ev).length
          = (runAgent initAgent ops).writers.length
      ∧ (∀ w ∈ (runAgent initAgent ops).writers,
          (appendTraceEvent (runAgent initAgent ops) ev).count (w, ev) = 1)
      ∧ ∀ cs, appendTraceEvent
            { runAgent initAgent ops with categories_ := cs } ev
          = appendTraceEvent (runAgent initAgent ops) ev := by
  intro ops ev
  have hinv := runAgent_inv ops initAgent initAgent_inv
  refine ⟨rfl, by simp [appendTraceEvent], ?_, fun cs => rfl⟩
  intro w hw
  rw [appendTraceEvent, count_map_pair]
  exact count_nodup_one hinv.1 hw

/-- C2 witness: with the single registered writer id 1, appending event 7
produces exactly one `(1, 7)` append call. -/
theorem appendFanout_witness :
    (appendTraceEvent (runAgent initAgent [AgentOp.addClient ["net"] false]) 7).count
        (1, 7) = 1 :=
  (appendFanout [AgentOp.addClient ["net"] false] 7).2.2.1 1 (by decide)

lemma assignedIdsFrom_ge :
    ∀ (ops : List AgentOp) (a : Agent),
      ∀ i ∈ assignedIdsFrom a ops, a.next_writer_id ≤ i := by
  intro ops
  induction ops with
  | nil =>
    intro a i hi
    simp [assignedIdsFrom] at hi
  | cons op rest ih =>
    intro a i hi
    have hmono := stepAgent_next_mono a op
    cases op with
    | addClient cats d =>
      simp only [assignedIdsFrom, List.mem_cons] at hi
      rcases hi with hi | hi
      · omega
      · have := ih (stepAgent a (.addClient cats d)) i hi
        omega
    | disconnect id =>
      have := ih (stepAgent a (.disconnect id)) i hi
      omega
    | enable id cats =>
      have := ih (stepAgent a (.enable id cats)) i hi
      omega
    | disable id cats =>
      have := ih (stepAgent a (.disable id cats)) i hi
      omega

lemma assignedIdsFrom_pairwise :
    ∀ (ops : List AgentOp) (a : Agent),
      (assignedIdsFrom a ops).Pairwise (· < ·) := by
  intro ops
  induction ops with
  | nil =>
    intro a
    simp [assignedIdsFrom]
  | cons op rest ih =>
    intro a
    cases op with
    | addClient cats d =>
      refine List.Pairwise.cons ?_ (ih (stepAgent a (.addClient cats d)))
      intro j hj
      have hge := assignedIdsFrom_ge rest (stepAgent a (.addClient cats d)) j hj
      have : (stepAgent a (.addClient cats d)).next_writer_id
          = a.next_writer_id + 1 := by
        simp [stepAgent, agentAddClient]
      omega
    | disconnect id => exact ih (stepAgent a (.disconnect id))
    | enable id cats => exact ih (stepAgent a (.enable id cats))
    | disable id cats => exact ih (stepAgent a (.disable id cats))

/-- C6: over any operation sequence on a fresh Agent, the ids handed out
by successive `AddClient` calls are strictly increasing in call order —
hence pairwise distinct and, `next_writer_id` never decreasing, never
reused even after the corresponding `Disconnect` — and every one of them
is positive and distinct from the default-handle sentinel id -1. -/
theorem clientIdsFresh :
    ∀ ops : List AgentOp,
      (assignedIds ops).Pairwise (· < ·)
      ∧ ∀ i ∈ assignedIds ops, 0 < i ∧ i ≠ kDefaultHandleId := by
  intro ops
  refine ⟨assignedIdsFrom_pairwise ops initAgent, ?_⟩
  intro i hi
  have := assignedIdsFrom_ge ops initAgent i hi
  have h1 : initAgent.next_writer_id = 1 := rfl
  constructor
  · omega
  · intro hcontra
    rw [hcontra] at this
    simp [kDefaultHandleId, initAgent] at this

/-- C6 witness: the first client of a fresh Agent gets id 1, which is
positive and distinct from the sentinel -1. -/
theorem clientIdsFresh_witness :
    0 < (1 : Int) ∧ (1 : Int) ≠ kDefaultHandleId :=
  (clientIdsFresh [AgentOp.addClient [] false]).2 1 (by decide)

/-! ## C7: the enabled-categories string -/

lemma enableAssoc_of_notMem (id : Int) (cats : List String) :
    ∀ m : List (Int × Cats), (∀ p ∈ m, p.1 ≠ id) →
      enableAssoc m id cats = m ++ [(id, cats)] := by
  intro m
  induction m with
  | nil => intro _; rfl
  | cons p rest ih =>
    intro h
    have hp : p.1 ≠ id := h p (List.mem_cons_self p rest)
    obtain ⟨k, v⟩ := p
    simp only [enableAssoc, if_neg hp, List.cons_append, List.cons.injEq,
      true_and]
    exact ih fun q hq => h q (List.mem_cons_of_mem _ hq)

/-- C7: `GetEnabledCategories` returns the comma-join of the union of all
ids' category multisets, flattened in insertion order across ids; it
returns the empty string whenever no category is enabled by any id, and
enabling categories through an id with no current entry appends them
after all existing categories, keeping the existing order stable. -/
theorem enabledCategoriesString :
    ∀ (a : Agent) (id : Int) (cats : List String),
      getEnabledCategories a = String.intercalate "," (enabledList a)
      ∧ enabledList a = (a.categories_.map Prod.snd).flatten
      ∧ (enabledList a = [] → getEnabledCategories a = "")
      ∧ ((∀ p ∈ a.categories_, p.1 ≠ id) →
          enabledList (agentEnable a id cats) = enabledList a ++ cats) := by
  intro a id cats
  refine ⟨rfl, rfl, ?_, ?_⟩
  · intro h
    rw [getEnabledCategories, h]
    rfl
  · intro h
    rw [agentEnable, enabledList, enabledList]
    simp only
    rw [enableAssoc_of_notMem id cats a.categories_ h]
    simp

/-- C7 witness: the fresh Agent has no enabled category and
`GetEnabledCategories` returns the empty string on it; after enabling
"b" through id 2 on a state where id 1 contributed "a", the string is
"a,b" (insertion order preserved). -/
theorem enabledCategoriesString_witness :
    getEnabledCategories initAgent = ""
    ∧ enabledList (agentEnable (agentEnable initAgent 1 ["a"]) 2 ["b"])
        = ["a"] ++ ["b"] :=
  ⟨(enabledCategoriesString initAgent 0 []).2.2.1 rfl,
    (enabledCategoriesString (agentEnable initAgent 1 ["a"]) 2 ["b"]).2.2.2
      (by decide)⟩

/-! ## C8: the timestamp adapter -/

/-- C8: `CurrentTimestampMicroseconds` is a pure function of the
monotonic clock reading: it truncates the nanosecond count to the
`uint64_t` range and divides by 1000 with integer division; on every
in-range reading this is exactly `t / 1000`, the result always fits an
`int64_t` (so the conversion loses nothing), and the conversion is
monotone in the clock value. -/
theorem currentTimestamp :
    ∀ t : Nat,
      currentTimestampMicroseconds t = ((t % 2 ^ 64) / 1000 : Nat)
      ∧ (t < 2 ^ 64 → currentTimestampMicroseconds t = ((t / 1000 : Nat) : Int))
      ∧ 0 ≤ currentTimestampMicroseconds t
      ∧ currentTimestampMicroseconds t < 2 ^ 63
      ∧ ∀ s : Nat, s ≤ t → t < 2 ^ 64 →
          currentTimestampMicroseconds s ≤ currentTimestampMicroseconds t := by
  intro t
  refine ⟨rfl, ?_, ?_, ?_, ?_⟩
  · intro h
    rw [currentTimestampMicroseconds, Nat.mod_eq_of_lt h]
  · exact Int.ofNat_nonneg _
  · rw [currentTimestampMicroseconds]
    have h1 : t % 2 ^ 64 < 2 ^ 64 := Nat.mod_lt _ (by norm_num)
    have h2 : (t % 2 ^ 64) / 1000 < 2 ^ 63 := by
      rw [Nat.div_lt_iff_lt_mul (by norm_num)]
      calc t % 2 ^ 64 < 2 ^ 64 := h1
        _ ≤ 2 ^ 63 * 1000 := by norm_num
    exact_mod_cast h2
  · intro s hs ht
    rw [currentTimestampMicroseconds, currentTimestampMicroseconds,
      Nat.mod_eq_of_lt ht, Nat.mod_eq_of_lt (lt_of_le_of_lt hs ht)]
    exact_mod_cast Nat.div_le_div_right hs

/-- C8 witness: a clock reading of 123456 nanoseconds is reported as
123 microseconds. -/
theorem currentTimestamp_witness :
    currentTimestampMicroseconds 123456 = ((123456 / 1000 : Nat) : Int) :=
  (currentTimestamp 123456).2.1 (by norm_num)

/-! ## C10: the NodeCategorySet binding -/

lemma netEnables_append (c1 c2 : List WriterCall) :
    netEnables (c1 ++ c2) = netEnables c1 + netEnables c2 := by
  simp only [netEnables, List.filter_append, List.length_append]
  push_cast
  ring

lemma stepNcs_net (s : NodeCategorySet) (op : NcsOp) :
    netEnables (stepNcs s op).2
      = bit (stepNcs s op).1.enabled_ - bit s.enabled_ := by
  obtain ⟨e, cs⟩ := s
  cases op <;> cases e <;> cases cs <;>
    simp [stepNcs, NodeCategorySet.Enable, NodeCategorySet.Disable,
      netEnables, isEnableCall, bit]

lemma runNcs_net :
    ∀ (ops : List NcsOp) (s : NodeCategorySet),
      netEnables (runNcs s ops).2
        = bit (runNcs s ops).1.enabled_ - bit s.enabled_ := by
  intro ops
  induction ops with
  | nil =>
    intro s
    simp [runNcs, netEnables]
  | cons op rest ih =>
    intro s
    rw [runNcs]
    simp only
    rw [netEnables_append, stepNcs_net, ih]
    ring

/-- C10: `NodeCategorySet::Enable` forwards the set's categories to the
agent writer handle exactly when the set is not already enabled and
non-empty, and `Disable` exactly when it is enabled and non-empty; the
second of two consecutive `Enable` (or `Disable`) calls never forwards,
so two consecutive `Enable` calls on a disabled non-empty set forward
exactly once (likewise `Disable` on an enabled set), and over any call
sequence the net number of forwarded enables for the set is
`enabled-flag delta`, hence never more than one: the set's categories
are counted in the Agent's ref-count table at most once at any time. -/
theorem categorySetSingleForward :
    ∀ (s : NodeCategorySet) (ops : List NcsOp),
      (s.Enable).2 = (if s.enabled_ = false ∧ s.categories_ ≠ [] then
          [WriterCall.enable s.categories_] else [])
      ∧ (s.Disable).2 = (if s.enabled_ = true ∧ s.categories_ ≠ [] then
          [WriterCall.disable s.categories_] else [])
      ∧ ((s.Enable).1.Enable).2 = []
      ∧ ((s.Disable).1.Disable).2 = []
      ∧ (s.enabled_ = false → s.categories_ ≠ [] →
          (s.Enable).2 ++ ((s.Enable).1.Enable).2
            = [WriterCall.enable s.categories_])
      ∧ (s.enabled_ = true → s.categories_ ≠ [] →
          (s.Disable).2 ++ ((s.Disable).1.Disable).2
            = [WriterCall.disable s.categories_])
      ∧ netEnables (runNcs s ops).2
          = bit (runNcs s ops).1.enabled_ - bit s.enabled_
      ∧ netEnables (runNcs s ops).2 ≤ 1 := by
  intro s ops
  have hnet := runNcs_net ops s
  refine ⟨?_, ?_, ?_, ?_, ?_, ?_, hnet, ?_⟩
  · obtain ⟨e, cs⟩ := s
    cases e <;> cases cs <;> simp [NodeCategorySet.Enable]
  · obtain ⟨e, cs⟩ := s
    cases e <;> cases cs <;> simp [NodeCategorySet.Disable]
  · obtain ⟨e, cs⟩ := s
    cases e <;> cases cs <;> simp [NodeCategorySet.Enable]
  · obtain ⟨e, cs⟩ := s
    cases e <;> cases cs <;> simp [NodeCategorySet.Disable]
  · intro he hc
    obtain ⟨e, cs⟩ := s
    cases cs with
    | nil => exact absurd rfl hc
    | cons c cs =>
      subst he
      simp [NodeCategorySet.Enable]
  · intro he hc
    obtain ⟨e, cs⟩ := s
    cases cs with
    | nil => exact absurd rfl hc
    | cons c cs =>
      subst he
      simp [NodeCategorySet.Disable]
  · rw [hnet]
    rcases s with ⟨e, cs⟩
    cases e <;> cases hb : (runNcs ⟨_, cs⟩ ops).1.enabled_ <;> simp [bit]

/-- C10 witness: two consecutive `enable` calls on a fresh, non-empty
category set forward exactly one Enable call to the agent writer
handle. -/
theorem categorySetSingleForward_witness :
    ((NodeCategorySet.mk false ["node"]).Enable).2
      ++ (((NodeCategorySet.mk false ["node"]).Enable).1.Enable).2
      = [WriterCall.enable ["node"]] :=
  (categorySetSingleForward ⟨false, ["node"]⟩ []).2.2.2.2.1 rfl (by decide)

end Tracing
